import Mathlib

/-
  A verification development for the access-time (atime) tracking subsystem
  of the dfcpub storage target (Go package atime).

  Modelling conventions:
  * Go maps are modelled as association lists; the list order stands for the
    (unspecified) Go map iteration order, so theorems quantified over lists
    cover every iteration order.
  * uint64 and float64 arithmetic of the flush sizing policy is modelled by
    exact arithmetic over ℕ and ℚ (the float64 weighted formula
    `int(float64(filling-LWM)/float64(HWM-LWM)*float64(S))` truncates a
    nonnegative value and is modelled as the natural division
    `(filling-LWM)*S/(HWM-LWM)`).
  * `time.Time` is modelled as an integer instant; the Go zero value
    `time.Time{}` is `0`.
  * The filesystem calls `os.Stat`/`os.Chtimes` and the disk-utilization
    oracle `iostat.Runner.MaxUtilFS` are modelled as explicit oracles
    (an `FS` record of functions, and an `Option ℚ` utilization reading).
-/

/-! ## Constants (source: package atime, constant block) -/

def atimeCacheFlushThreshold : ℕ := 4 * 1024

def atimeLWM : ℕ := 60

def atimeHWM : ℕ := 80

def atimeTouch : String := "touch"

def atimeGet : String := "get"

/-- `time.Time` modelled as an integer instant; `0` is the zero value `time.Time{}`. -/
abbrev Time := ℤ

/-- Modelled from the spec: `cmn.MinU64` is not under src/; the spec's sizing
rule 2 reads `filling = min(100, ⌊S·100/M⌋)`, so the helper is the minimum of
two unsigned integers. -/
def MinU64 (a b : ℕ) : ℕ := min a b

/-! ## Flush sizing policy (`mpathAtimeRunner.getNumberItemsToFlush`) -/

/-- The switch statement of `mpathAtimeRunner.getNumberItemsToFlush`, as a
function of the map size, the already-computed `filling`, and `maxDiskUtil`
(the oracle reading, or `-1` when the filesystem is unknown to the oracle).
The float64 weighted branch `n = int(f) / 4` with
`f = float64(filling-atimeLWM) / float64(atimeHWM-atimeLWM) * float64(atimeMapSize)`
is modelled by exact arithmetic: truncating the nonnegative real
`(filling-60)/20·S` gives the natural division `(filling-60)*S/20`. -/
def flushCountFromFilling (atimeMapSize filling : ℕ) (maxDiskUtil : ℚ) : ℕ :=
  if 0 ≤ maxDiskUtil ∧ maxDiskUtil < 50 then atimeMapSize / 4
  else if filling = 100 then atimeMapSize / 2
  else if atimeHWM < filling then atimeMapSize / 4
  else if atimeLWM < filling then
    (filling - atimeLWM) * atimeMapSize / (atimeHWM - atimeLWM) / 4
  else 0

/-- `mpathAtimeRunner.getNumberItemsToFlush`: return 0 when the map is at or
below `atimeCacheFlushThreshold`; otherwise compute
`filling = MinU64(100, S*100 / *m.maxMapSize)` and run the utilization switch.
`util` is the result of `m.riostat.MaxUtilFS(m.fs)` (`none` when `ok` is
false, in which case the code keeps `maxDiskUtil = -1`).
Division is the total natural division; the Go run-time fault at
`*m.maxMapSize = 0` is modelled by `getNumberItemsToFlushChecked` below. -/
def getNumberItemsToFlush (atimeMapSize maxMapSize : ℕ) (util : Option ℚ) : ℕ :=
  if atimeMapSize ≤ atimeCacheFlushThreshold then 0
  else
    flushCountFromFilling atimeMapSize
      (MinU64 100 (atimeMapSize * 100 / maxMapSize)) (util.getD (-1))

/-- The same computation with Go's partiality made explicit: the source
dereferences `m.maxMapSize` and divides by it with no zero guard, and an
integer division by zero panics at run time; `none` models that fault. -/
def getNumberItemsToFlushChecked (atimeMapSize maxMapSize : ℕ) (util : Option ℚ) :
    Option ℕ :=
  if atimeMapSize ≤ atimeCacheFlushThreshold then some 0
  else if maxMapSize = 0 then none
  else
    some (flushCountFromFilling atimeMapSize
      (MinU64 100 (atimeMapSize * 100 / maxMapSize)) (util.getD (-1)))

/-! ## The sizing policy as §4.3 of the spec words it -/

/-- Spec §4.3 rule 2: `filling = min(100, ⌊S·100/M⌋)`, with the floor taken
over the rationals exactly as the spec's formula reads. -/
def fillingSpec (S M : ℕ) : ℕ := min 100 (Nat.floor ((S : ℚ) * 100 / (M : ℚ)))

/-- Spec §4.3, rules 1-7 evaluated in order, first match wins, floors taken
over the rationals exactly as the spec's formulas read. -/
def flushSizeSpec (S M : ℕ) (U : ℚ) : ℕ :=
  if S ≤ 4096 then 0
  else if 0 ≤ U ∧ U < 50 then S / 4
  else if fillingSpec S M = 100 then S / 2
  else if 80 < fillingSpec S M then S / 4
  else if 60 < fillingSpec S M then
    Nat.floor (((fillingSpec S M : ℚ) - 60) / (80 - 60) * (S : ℚ) / 4)
  else 0

/-! ## C1, C9, C10: theorems about the sizing policy -/

theorem fillingSpec_eq (S M : ℕ) : fillingSpec S M = MinU64 100 (S * 100 / M) := by
  unfold fillingSpec MinU64
  have h1 : ((S : ℚ) * 100) = ((S * 100 : ℕ) : ℚ) := by push_cast; ring
  rw [h1, Nat.floor_div_nat, Nat.floor_natCast]

theorem weighted_branch_eq (f S : ℕ) (h60 : 60 < f) :
    Nat.floor (((f : ℚ) - 60) / (80 - 60) * (S : ℚ) / 4) = (f - 60) * S / 20 / 4 := by
  have hc : ((f : ℚ) - 60) = ((f - 60 : ℕ) : ℚ) := by
    have h : (60 : ℕ) ≤ f := le_of_lt h60
    push_cast [h]
    ring
  have h2 : ((f - 60 : ℕ) : ℚ) / (80 - 60) * (S : ℚ) / 4
      = (((f - 60) * S : ℕ) : ℚ) / ((80 : ℕ) : ℚ) := by
    push_cast
    norm_num
    ring
  rw [hc, h2, Nat.floor_div_nat, Nat.floor_natCast, Nat.div_div_eq_div_mul]

/-- C1: for every map size `S`, bound `M ≥ 1` and utilization reading (a
rational reading, or `none` when the oracle reports the filesystem absent, in
which case the code keeps `maxDiskUtil = -1` and the idle rule cannot fire),
`getNumberItemsToFlush` returns exactly the value of the spec's rules 1-7
evaluated in order with first match winning. (`M = 0` makes the Go code fault
and the spec's own formula undefined; see `getNumberItemsToFlush_zero_guard`.) -/
theorem getNumberItemsToFlush_matches_spec (S M : ℕ) (hM : 0 < M) (util : Option ℚ) :
    getNumberItemsToFlush S M util = flushSizeSpec S M (util.getD (-1)) := by
  unfold getNumberItemsToFlush flushSizeSpec flushCountFromFilling
  rw [fillingSpec_eq]
  have hthr : atimeCacheFlushThreshold = 4096 := by norm_num [atimeCacheFlushThreshold]
  rw [hthr]
  by_cases hS : S ≤ 4096
  · simp [hS]
  · simp only [if_neg hS]
    set f := MinU64 100 (S * 100 / M) with hf
    by_cases hidle : 0 ≤ util.getD (-1) ∧ util.getD (-1) < 50
    · simp [hidle]
    · simp only [if_neg hidle]
      by_cases h100 : f = 100
      · simp [h100]
      · simp only [if_neg h100]
        by_cases h80 : atimeHWM < f
        · rw [if_pos h80, if_pos (show 80 < f from h80)]
        · rw [if_neg h80, if_neg (show ¬ 80 < f from h80)]
          by_cases h60 : atimeLWM < f
          · rw [if_pos h60, if_pos (show 60 < f from h60)]
            rw [weighted_branch_eq f S h60]
            norm_num [atimeLWM, atimeHWM]
          · rw [if_neg h60, if_neg (show ¬ 60 < f from h60)]

/-- C1 witness: the spec's own scenario 4 (`M = 10000`, `S = 8500`, `U = 75`). -/
theorem getNumberItemsToFlush_matches_spec_witness :
    (0 < 10000)
    ∧ getNumberItemsToFlush 8500 10000 (some 75)
        = flushSizeSpec 8500 10000 ((some (75 : ℚ)).getD (-1)) :=
  ⟨by norm_num, getNumberItemsToFlush_matches_spec 8500 10000 (by norm_num) (some 75)⟩

/-- C9: for fixed `S > 4096` and fixed `M`, with a utilization reading
`U ≥ 50` (so the idle rule does not fire), the computed flush count is the
switch `flushCountFromFilling` applied to `filling`, and that switch is a
non-decreasing function of `filling` on `[0, 100]`. -/
theorem flushCount_monotone_in_filling (S : ℕ) (U : ℚ) (hU : 50 ≤ U) :
    (∀ M : ℕ, atimeCacheFlushThreshold < S →
        getNumberItemsToFlush S M (some U)
          = flushCountFromFilling S (MinU64 100 (S * 100 / M)) U)
    ∧ ∀ f1 f2 : ℕ, f1 ≤ f2 → f2 ≤ 100 →
        flushCountFromFilling S f1 U ≤ flushCountFromFilling S f2 U := by
  have hidle : ¬ (0 ≤ U ∧ U < 50) := by
    rintro ⟨-, h⟩
    exact absurd hU (not_le.mpr h)
  constructor
  · intro M hS
    unfold getNumberItemsToFlush
    rw [if_neg (not_le.mpr hS)]
    rfl
  · intro f1 f2 h12 h2
    have hHL : atimeHWM - atimeLWM = 20 := by norm_num [atimeHWM, atimeLWM]
    have hL : atimeLWM = 60 := by norm_num [atimeLWM]
    have hH : atimeHWM = 80 := by norm_num [atimeHWM]
    have hband : ∀ f : ℕ, f ≤ 100 →
        (f - atimeLWM) * S / (atimeHWM - atimeLWM) / 4 ≤ S / 2 := by
      intro f hf
      have h1 : (f - atimeLWM) * S ≤ 40 * S :=
        Nat.mul_le_mul_right S (by omega)
      have h2 : (f - atimeLWM) * S / (atimeHWM - atimeLWM) ≤ 2 * S := by
        rw [hHL]
        calc (f - atimeLWM) * S / 20 ≤ 40 * S / 20 := Nat.div_le_div_right h1
          _ = 2 * S := by rw [show 40 * S = 20 * (2 * S) by ring,
                Nat.mul_div_cancel_left (2 * S) (by norm_num)]
      calc (f - atimeLWM) * S / (atimeHWM - atimeLWM) / 4 ≤ 2 * S / 4 :=
            Nat.div_le_div_right h2
        _ = S / 2 := by
            rw [show (4 : ℕ) = 2 * 2 by norm_num, ← Nat.div_div_eq_div_mul,
              Nat.mul_div_cancel_left S (by norm_num)]
    have hband4 : ∀ f : ℕ, f ≤ 80 →
        (f - atimeLWM) * S / (atimeHWM - atimeLWM) / 4 ≤ S / 4 := by
      intro f hf
      have h1 : (f - atimeLWM) * S ≤ 20 * S :=
        Nat.mul_le_mul_right S (by omega)
      have h2 : (f - atimeLWM) * S / (atimeHWM - atimeLWM) ≤ S := by
        rw [hHL]
        calc (f - atimeLWM) * S / 20 ≤ 20 * S / 20 := Nat.div_le_div_right h1
          _ = S := Nat.mul_div_cancel_left S (by norm_num)
      exact Nat.div_le_div_right h2
    have hhalf : S / 4 ≤ S / 2 := Nat.div_le_div_left (by norm_num) (by norm_num)
    unfold flushCountFromFilling
    rw [if_neg hidle, if_neg hidle]
    by_cases h2100 : f2 = 100
    · rw [if_pos h2100]
      by_cases h1100 : f1 = 100
      · rw [if_pos h1100]
      · rw [if_neg h1100]
        by_cases h180 : atimeHWM < f1
        · rw [if_pos h180]; exact hhalf
        · rw [if_neg h180]
          by_cases h160 : atimeLWM < f1
          · rw [if_pos h160]; exact hband f1 (le_trans h12 h2)
          · rw [if_neg h160]; exact Nat.zero_le _
    · rw [if_neg h2100]
      by_cases h280 : atimeHWM < f2
      · rw [if_pos h280]
        have h1100 : ¬ f1 = 100 := by omega
        rw [if_neg h1100]
        by_cases h180 : atimeHWM < f1
        · rw [if_pos h180]
        · rw [if_neg h180]
          by_cases h160 : atimeLWM < f1
          · rw [if_pos h160]; exact hband4 f1 (by omega)
          · rw [if_neg h160]; exact Nat.zero_le _
      · rw [if_neg h280]
        by_cases h260 : atimeLWM < f2
        · rw [if_pos h260]
          have h1100 : ¬ f1 = 100 := by omega
          have h180 : ¬ atimeHWM < f1 := by omega
          rw [if_neg h1100, if_neg h180]
          by_cases h160 : atimeLWM < f1
          · rw [if_pos h160]
            exact Nat.div_le_div_right (Nat.div_le_div_right
              (Nat.mul_le_mul_right S (Nat.sub_le_sub_right h12 atimeLWM)))
          · rw [if_neg h160]; exact Nat.zero_le _
        · rw [if_neg h260]
          have h1100 : ¬ f1 = 100 := by omega
          have h180 : ¬ atimeHWM < f1 := by omega
          have h160 : ¬ atimeLWM < f1 := by omega
          rw [if_neg h1100, if_neg h180, if_neg h160]

/-- C9 witness: `S = 8500`, `U = 75`, fillings `65 ≤ 85 ≤ 100`. -/
theorem flushCount_monotone_in_filling_witness :
    (50 : ℚ) ≤ 75
    ∧ (atimeCacheFlushThreshold < 8500 →
        getNumberItemsToFlush 8500 10000 (some 75)
          = flushCountFromFilling 8500 (MinU64 100 (8500 * 100 / 10000)) 75)
    ∧ (65 ≤ 85 → 85 ≤ 100 →
        flushCountFromFilling 8500 65 75 ≤ flushCountFromFilling 8500 85 75) :=
  ⟨by norm_num,
   fun h => (flushCount_monotone_in_filling 8500 75 (by norm_num)).1 10000 h,
   (flushCount_monotone_in_filling 8500 75 (by norm_num)).2 65 85⟩

/-- C10: the source dereferences `maxMapSize` and divides by it with no zero
guard; whenever the map size exceeds the flush threshold, `MaxMapSize = 0`
faults (modelled as `none`), and under the precondition `1 ≤ MaxMapSize` the
division branch is safe for every map size and agrees with the total model. -/
theorem getNumberItemsToFlush_zero_guard (S M : ℕ) (util : Option ℚ) :
    (atimeCacheFlushThreshold < S → M = 0 →
        getNumberItemsToFlushChecked S M util = none)
    ∧ (0 < M →
        getNumberItemsToFlushChecked S M util
          = some (getNumberItemsToFlush S M util)) := by
  constructor
  · intro hS hM
    unfold getNumberItemsToFlushChecked
    rw [if_neg (not_le.mpr hS), if_pos hM]
  · intro hM
    unfold getNumberItemsToFlushChecked getNumberItemsToFlush
    by_cases hS : S ≤ atimeCacheFlushThreshold
    · rw [if_pos hS, if_pos hS]
    · rw [if_neg hS, if_neg hS, if_neg (Nat.pos_iff_ne_zero.mp hM)]

/-- C10 witness: a 4097-entry map faults at `MaxMapSize = 0` and is safe at
`MaxMapSize = 1`. -/
theorem getNumberItemsToFlush_zero_guard_witness :
    getNumberItemsToFlushChecked 4097 0 (some 75) = none
    ∧ getNumberItemsToFlushChecked 4097 1 (some 75)
        = some (getNumberItemsToFlush 4097 1 (some 75)) :=
  ⟨(getNumberItemsToFlush_zero_guard 4097 0 (some 75)).1
      (by norm_num [atimeCacheFlushThreshold]) rfl,
   (getNumberItemsToFlush_zero_guard 4097 1 (some 75)).2 (by norm_num)⟩

/-! ## The filesystem oracle and the writeback (`mpathAtimeRunner.handleFlush`) -/

/-- Errors distinguishable by `os.IsNotExist`. -/
inductive FSErr
  | notFound
  | other
deriving DecidableEq

/-- The filesystem as the worker sees it during a writeback:
`stat fqn` is `os.Stat(fqn)` (`Except.ok` carries `finfo.ModTime()`),
`chtimes fqn atime mtime` is `os.Chtimes(fqn, atime, mtime)`
(`none` is success). -/
structure FS where
  stat : String → Except FSErr Time
  chtimes : String → Time → Time → Option FSErr

/-- An access-time map (`m.atimemap : map[string]time.Time`), modelled as an
association list whose order stands for the Go map iteration order. -/
abbrev AtimeMap := List (String × Time)

/-- One entry of the `handleFlush` loop body: `true` means the entry is
removed from the map (and counted toward `n`), `false` means it is kept.
`stat` not-found removes; any other `stat` error keeps; otherwise `os.Chtimes`
is called with the recorded access time and the mtime just obtained from
`stat` (not-found removes, other errors keep, success removes). -/
def flushEntry (fs : FS) (fqn : String) (atime : Time) : Bool :=
  match fs.stat fqn with
  | .error .notFound => true
  | .error .other => false
  | .ok mtime =>
    match fs.chtimes fqn atime mtime with
    | some .notFound => true
    | some .other => false
    | none => true

/-- The `for fqn, atime := range m.atimemap` loop of `handleFlush`: process
entries in iteration order, drop the removed ones, keep the rest, and break
as soon as the removal counter `i` reaches `n` (the `cont:` label checks
`i >= n` after every entry); entries after the break survive untouched. -/
def flushLoop (fs : FS) (n : ℕ) : AtimeMap → ℕ → AtimeMap
  | [], _ => []
  | (fqn, atime) :: rest, i =>
    if flushEntry fs fqn atime then
      if n ≤ i + 1 then rest else flushLoop fs n rest (i + 1)
    else
      if n ≤ i then (fqn, atime) :: rest else (fqn, atime) :: flushLoop fs n rest i

/-- `mpathAtimeRunner.handleFlush`: when `n = 0` recompute `n` from the
sizing policy (`maxMapSize` and `util` are the worker's `*m.maxMapSize` and
`m.riostat.MaxUtilFS(m.fs)` reading); when the effective `n ≤ 0` do nothing;
otherwise run the writeback loop with counter `i = 0`. -/
def handleFlush (fs : FS) (maxMapSize : ℕ) (util : Option ℚ) (m : AtimeMap)
    (n : ℤ) : AtimeMap :=
  if (if n = 0 then (getNumberItemsToFlush m.length maxMapSize util : ℤ) else n) ≤ 0
  then m
  else
    flushLoop fs
      (if n = 0 then (getNumberItemsToFlush m.length maxMapSize util : ℤ) else n).toNat
      m 0

/-! ## Association-list helpers shared by the worker and dispatcher models -/

/-- Go map read `l[q]` (first match; `none` when absent). -/
def mapGet {α : Type} : List (String × α) → String → Option α
  | [], _ => none
  | (k, v) :: rest, q => if k = q then some v else mapGet rest q

/-- Go map write `l[q] = v`: overwrite in place, or append when absent. -/
def mapSet {α : Type} : List (String × α) → String → α → List (String × α)
  | [], q, v => [(q, v)]
  | (k, w) :: rest, q, v =>
    if k = q then (q, v) :: rest else (k, w) :: mapSet rest q v

/-- Go `delete(l, q)`. -/
def eraseKey {α : Type} : List (String × α) → String → List (String × α)
  | [], _ => []
  | (k, w) :: rest, q => if k = q then rest else (k, w) :: eraseKey rest q

/-- The keys of an association list are pairwise distinct (the Go map
invariant). -/
def nodupKeys {α : Type} (l : List (String × α)) : Prop := (l.map Prod.fst).Nodup

theorem mapGet_eq_some_of_mem {α : Type} {l : List (String × α)} {q : String}
    {v : α} (hnd : nodupKeys l) (hmem : (q, v) ∈ l) : mapGet l q = some v := by
  induction l with
  | nil => cases hmem
  | cons kv rest ih =>
    obtain ⟨k, w⟩ := kv
    simp only [nodupKeys, List.map_cons, List.nodup_cons] at hnd
    rcases List.mem_cons.mp hmem with h | h
    · injection h with h1 h2
      subst h1
      subst h2
      simp [mapGet]
    · have hkq : k ≠ q := fun hkq =>
        hnd.1 (hkq ▸ List.mem_map.mpr ⟨(q, v), h, rfl⟩)
      simp only [mapGet, if_neg hkq]
      exact ih hnd.2 h

theorem mem_of_mapGet_eq_some {α : Type} :
    ∀ {l : List (String × α)} {q : String} {v : α},
      mapGet l q = some v → (q, v) ∈ l := by
  intro l
  induction l with
  | nil => intro q v h; simp [mapGet] at h
  | cons kv rest ih =>
    intro q v h
    obtain ⟨k, w⟩ := kv
    by_cases hk : k = q
    · subst hk
      simp only [mapGet, if_pos rfl] at h
      injection h with h
      subst h
      exact List.mem_cons_self _ _
    · simp only [mapGet, if_neg hk] at h
      exact List.mem_cons_of_mem _ (ih h)

theorem mapGet_restrict {α : Type} {l' l : List (String × α)}
    (hsub : List.Sublist l' l) (hnd : nodupKeys l) {q : String} {v : α}
    (h : mapGet l' q = some v) : mapGet l q = some v :=
  mapGet_eq_some_of_mem hnd (hsub.subset (mem_of_mapGet_eq_some h))

theorem nodupKeys_of_sublist {α : Type} {l' l : List (String × α)}
    (hsub : List.Sublist l' l) (hnd : nodupKeys l) : nodupKeys l' :=
  List.Nodup.sublist (List.Sublist.map Prod.fst hsub) hnd

/-! ## Structural lemmas about the writeback loop -/

theorem flushLoop_sublist (fs : FS) (n : ℕ) :
    ∀ (l : AtimeMap) (i : ℕ), List.Sublist (flushLoop fs n l i) l := by
  intro l
  induction l with
  | nil => intro i; simp [flushLoop]
  | cons kv rest ih =>
    intro i
    obtain ⟨fqn, t⟩ := kv
    simp only [flushLoop]
    by_cases hrem : flushEntry fs fqn t = true
    · rw [if_pos hrem]
      by_cases hbr : n ≤ i + 1
      · rw [if_pos hbr]
        exact List.Sublist.cons _ (List.Sublist.refl rest)
      · rw [if_neg hbr]
        exact List.Sublist.cons _ (ih (i + 1))
    · rw [if_neg hrem]
      by_cases hbr : n ≤ i
      · rw [if_pos hbr]
      · rw [if_neg hbr]
        exact List.Sublist.cons₂ _ (ih i)

theorem flushLoop_length (fs : FS) (n : ℕ) :
    ∀ (l : AtimeMap) (i : ℕ), i < n →
      l.length ≤ (flushLoop fs n l i).length + (n - i) := by
  intro l
  induction l with
  | nil => intro i _; simp [flushLoop]
  | cons kv rest ih =>
    intro i hin
    obtain ⟨fqn, t⟩ := kv
    simp only [flushLoop]
    by_cases hrem : flushEntry fs fqn t = true
    · rw [if_pos hrem]
      by_cases hbr : n ≤ i + 1
      · rw [if_pos hbr]
        simp only [List.length_cons]
        omega
      · rw [if_neg hbr]
        have := ih (i + 1) (by omega)
        simp only [List.length_cons]
        omega
    · rw [if_neg hrem, if_neg (by omega : ¬ n ≤ i)]
      have := ih i hin
      simp only [List.length_cons]
      omega

theorem flushLoop_all_removed (fs : FS) (n : ℕ) :
    ∀ (l : AtimeMap) (i : ℕ), i < n →
      (∀ kv ∈ l, flushEntry fs kv.1 kv.2 = true) →
      flushLoop fs n l i = l.drop (n - i) := by
  intro l
  induction l with
  | nil => intro i _ _; simp [flushLoop]
  | cons kv rest ih =>
    intro i hin hall
    obtain ⟨fqn, t⟩ := kv
    have hhead : flushEntry fs fqn t = true := hall (fqn, t) (List.mem_cons_self _ _)
    simp only [flushLoop, if_pos hhead]
    by_cases hbr : n ≤ i + 1
    · rw [if_pos hbr, show n - i = 1 by omega]
      rfl
    · rw [if_neg hbr,
        ih (i + 1) (by omega) (fun kv hkv => hall kv (List.mem_cons_of_mem _ hkv)),
        show n - i = (n - (i + 1)) + 1 by omega, List.drop_succ_cons]

theorem handleFlush_sublist (fs : FS) (M : ℕ) (util : Option ℚ) (m : AtimeMap)
    (n : ℤ) : List.Sublist (handleFlush fs M util m n) m := by
  unfold handleFlush
  split_ifs
  all_goals first
  | exact List.Sublist.refl m
  | exact flushLoop_sublist fs _ m 0

/-! ## C2, C3, C4: theorems about the writeback -/

/-- A filesystem on which every `stat` reports not-found. -/
def fsAllMissing : FS := ⟨fun _ => Except.error FSErr.notFound, fun _ _ _ => none⟩

/-- A filesystem on which every `stat` fails with a transient error. -/
def fsStatBusy : FS := ⟨fun _ => Except.error FSErr.other, fun _ _ _ => none⟩

/-- A filesystem on which every `stat` and every `chtimes` succeeds. -/
def fsAllGood : FS := ⟨fun _ => Except.ok 7, fun _ _ _ => none⟩

/-- Pairwise-distinct keys for the large-map counterexample. -/
def ceKey (i : ℕ) : String := String.mk (List.replicate i 'a')

theorem ceKey_injective : Function.Injective ceKey := by
  intro i j h
  unfold ceKey at h
  simpa using congrArg List.length (congrArg String.data h)

/-- A 4097-entry access-time map (just above `atimeCacheFlushThreshold`). -/
def bigAtimeMap : AtimeMap := (List.range 4097).map (fun i => (ceKey i, (0 : Time)))

theorem bigAtimeMap_length : bigAtimeMap.length = 4097 := by
  simp [bigAtimeMap]

theorem bigAtimeMap_nodup : nodupKeys bigAtimeMap := by
  unfold nodupKeys bigAtimeMap
  rw [List.map_map]
  exact (List.nodup_range 4097).map ceKey_injective

/-- C2 counterexample: the claim quantifies over every integer `n`, but
`handleFlush(0)` recomputes the count from the sizing policy, so on a
4097-entry map with an idle disk (`U = 0`, `MaxMapSize = 100`) and every file
already deleted, `handleFlush` with `n = 0` removes 1024 entries - not "at
most 0". -/
theorem handleFlush_zero_removes_entries :
    nodupKeys bigAtimeMap ∧ bigAtimeMap.length = 4097
    ∧ (handleFlush fsAllMissing 100 (some 0) bigAtimeMap 0).length = 3073 := by
  refine ⟨bigAtimeMap_nodup, bigAtimeMap_length, ?_⟩
  have hn : getNumberItemsToFlush 4097 100 (some 0) = 1024 := by
    norm_num [getNumberItemsToFlush, flushCountFromFilling, MinU64,
      atimeCacheFlushThreshold, atimeHWM, atimeLWM, Option.getD]
  have hall : ∀ kv ∈ bigAtimeMap, flushEntry fsAllMissing kv.1 kv.2 = true :=
    fun kv _ => rfl
  have hcast :
      (if (0 : ℤ) = 0
        then ((getNumberItemsToFlush bigAtimeMap.length 100 (some 0) : ℤ))
        else (0 : ℤ)) = 1024 := by
    rw [if_pos rfl, bigAtimeMap_length, hn]
    norm_num
  unfold handleFlush
  rw [hcast, if_neg (by norm_num : ¬ (1024 : ℤ) ≤ 0),
    show ((1024 : ℤ)).toNat = 1024 from rfl,
    flushLoop_all_removed fsAllMissing 1024 bigAtimeMap 0 (by norm_num) hall,
    List.length_drop, bigAtimeMap_length]

/-- C2 (amended): `handleFlush` never adds or modifies an entry and never
increases the map's size - the post-state is a restriction (sublist) of the
pre-state; when `n > 0` at most `n` entries are removed; when `n = 0` at most
the policy-computed count is removed; when `n < 0` the map is unchanged. -/
theorem handleFlush_bound (fs : FS) (M : ℕ) (util : Option ℚ) (m : AtimeMap)
    (n : ℤ) :
    List.Sublist (handleFlush fs M util m n) m
    ∧ (handleFlush fs M util m n).length ≤ m.length
    ∧ (0 < n → m.length ≤ (handleFlush fs M util m n).length + n.toNat)
    ∧ (n = 0 → m.length ≤ (handleFlush fs M util m n).length
          + getNumberItemsToFlush m.length M util)
    ∧ (n < 0 → handleFlush fs M util m n = m)
    ∧ (nodupKeys m → ∀ q v, mapGet (handleFlush fs M util m n) q = some v →
          mapGet m q = some v) := by
  refine ⟨handleFlush_sublist fs M util m n,
    (handleFlush_sublist fs M util m n).length_le, ?_, ?_, ?_, ?_⟩
  · intro hn
    unfold handleFlush
    rw [if_neg (by omega : ¬ n = 0)]
    rw [if_neg (by omega : ¬ n ≤ 0)]
    have := flushLoop_length fs n.toNat m 0 (by omega)
    omega
  · intro hn
    subst hn
    unfold handleFlush
    rw [if_pos rfl]
    set g := getNumberItemsToFlush m.length M util with hg
    by_cases hzero : ((g : ℤ)) ≤ 0
    · rw [if_pos hzero]
      omega
    · rw [if_neg hzero]
      have := flushLoop_length fs ((g : ℤ)).toNat m 0 (by omega)
      omega
  · intro hn
    unfold handleFlush
    rw [if_neg (by omega : ¬ n = 0), if_pos (by omega : n ≤ 0)]
  · intro hnd q v h
    exact mapGet_restrict (handleFlush_sublist fs M util m n) hnd h

/-- C2 witness: concrete instances of the bounded conjuncts on a one-entry map. -/
theorem handleFlush_bound_witness :
    ([("a", (5 : Time))].length
        ≤ (handleFlush fsAllMissing 100 (some 0) [("a", (5 : Time))] 1).length
          + (1 : ℤ).toNat)
    ∧ handleFlush fsAllMissing 100 (some 0) [("a", (5 : Time))] (-1)
        = [("a", (5 : Time))]
    ∧ mapGet [("a", (5 : Time))] "a" = some 5 :=
  ⟨(handleFlush_bound fsAllMissing 100 (some 0) [("a", (5 : Time))] 1).2.2.1
      (by norm_num),
   (handleFlush_bound fsAllMissing 100 (some 0) [("a", (5 : Time))] (-1)).2.2.2.2.1
      (by norm_num),
   (handleFlush_bound fsStatBusy 100 (some 0) [("a", (5 : Time))] 1).2.2.2.2.2
      (by simp [nodupKeys]) "a" 5 (by rfl)⟩

/-- C3: during a writeback, for each entry `(fqn, atime)` the worker
processes: a not-found from `stat` removes the entry (counted); any other
`stat` error keeps it (not counted); otherwise `chtimes` is invoked with the
recorded access time and the mtime just obtained from `stat` (preserving the
modification time), and a not-found removes (counted), any other error keeps,
success removes (counted); the loop drops removed entries, keeps the rest,
and advances the removal counter only on removal. -/
theorem flushEntry_cases (fs : FS) (fqn : String) (t : Time) :
    ((fs.stat fqn = Except.error FSErr.notFound → flushEntry fs fqn t = true)
    ∧ (fs.stat fqn = Except.error FSErr.other → flushEntry fs fqn t = false)
    ∧ ∀ mtime : Time, fs.stat fqn = Except.ok mtime →
        ((fs.chtimes fqn t mtime = none → flushEntry fs fqn t = true)
        ∧ (fs.chtimes fqn t mtime = some FSErr.notFound →
            flushEntry fs fqn t = true)
        ∧ (fs.chtimes fqn t mtime = some FSErr.other →
            flushEntry fs fqn t = false)))
    ∧ ∀ (n i : ℕ) (rest : AtimeMap), i < n →
        flushLoop fs n ((fqn, t) :: rest) i
          = if flushEntry fs fqn t then
              (if n ≤ i + 1 then rest else flushLoop fs n rest (i + 1))
            else (fqn, t) :: flushLoop fs n rest i := by
  constructor
  · refine ⟨fun h => by simp [flushEntry, h], fun h => by simp [flushEntry, h], ?_⟩
    intro mtime hst
    exact ⟨fun h => by simp [flushEntry, hst, h],
           fun h => by simp [flushEntry, hst, h],
           fun h => by simp [flushEntry, hst, h]⟩
  · intro n i rest hin
    simp only [flushLoop]
    by_cases hrem : flushEntry fs fqn t = true
    · rw [if_pos hrem, if_pos hrem]
    · rw [if_neg hrem, if_neg hrem, if_neg (by omega : ¬ n ≤ i)]

/-- C3 witness: a transient stat error keeps the entry, and the loop equation
holds at a concrete step. -/
theorem flushEntry_cases_witness :
    flushEntry fsStatBusy "a" 5 = false
    ∧ flushLoop fsStatBusy 1 [("a", (5 : Time))] 0
        = if flushEntry fsStatBusy "a" 5 then
            (if 1 ≤ 0 + 1 then [] else flushLoop fsStatBusy 1 [] (0 + 1))
          else ("a", (5 : Time)) :: flushLoop fsStatBusy 1 [] 0 :=
  ⟨(flushEntry_cases fsStatBusy "a" 5).1.2.1 rfl,
   (flushEntry_cases fsStatBusy "a" 5).2 1 0 [] (by norm_num)⟩

/-- C4: progress - on a non-empty map, if every `stat` made during the
writeback succeeds and every `chtimes` made with the stat's mtime succeeds,
then a flush with `n` at least the map's size empties the map. -/
theorem handleFlush_progress (fs : FS) (M : ℕ) (util : Option ℚ) (m : AtimeMap)
    (n : ℤ) (hne : m ≠ []) (hn : (m.length : ℤ) ≤ n)
    (hstat : ∀ kv ∈ m, ∃ mt : Time, fs.stat kv.1 = Except.ok mt)
    (hch : ∀ kv ∈ m, ∀ mt : Time, fs.stat kv.1 = Except.ok mt →
        fs.chtimes kv.1 kv.2 mt = none) :
    handleFlush fs M util m n = [] := by
  have hall : ∀ kv ∈ m, flushEntry fs kv.1 kv.2 = true := by
    intro kv hkv
    obtain ⟨mt, hmt⟩ := hstat kv hkv
    have hc := hch kv hkv mt hmt
    simp [flushEntry, hmt, hc]
  have hlen : 0 < m.length := List.length_pos.mpr hne
  unfold handleFlush
  rw [if_neg (by omega : ¬ n = 0), if_neg (by omega : ¬ n ≤ 0),
    flushLoop_all_removed fs n.toNat m 0 (by omega) hall, Nat.sub_zero]
  exact List.drop_eq_nil_of_le (by omega)

/-- C4 witness: a single-entry map on a fully healthy filesystem. -/
theorem handleFlush_progress_witness :
    handleFlush fsAllGood 100 (some 0) [("a", (5 : Time))] 1 = [] :=
  handleFlush_progress fsAllGood 100 (some 0) [("a", (5 : Time))] 1 (by simp)
    (by norm_num) (fun kv _ => ⟨7, rfl⟩) (fun kv _ mt _ => rfl)

/-! ## Dispatcher (`atime.Runner`) model

The external mountpath registry (`fs.MountedFS.Path2MpathInfo`) is modelled
as a function `resolve : String → Option MpathInfo`. Requests carry the same
fields as the source's `atimeRequest` (the reply channel is modelled by the
`Option Response` a dispatch produces). -/

/-- The part of `fs.MountpathInfo` the atime subsystem reads. -/
structure MpathInfo where
  Path : String
  FileSystem : String

/-- The source's `atimeRequest`, minus the reply channel. -/
structure atimeRequest where
  fqn : String
  accessTime : Time
  mpath : String
  requestType : String

/-- The source's `Response`: whether the object was present in the worker's
atimemap (`Ok`), and its recorded access time (zero when absent). -/
structure Response where
  Ok : Bool
  AccessTime : Time
deriving DecidableEq

/-- The worker registry `r.mpathRunners : map[string]*mpathAtimeRunner`,
each worker represented by the access-time map it owns. -/
abbrev Registry := List (String × AtimeMap)

/-- `Runner.Touch`: resolve `fqn`; when the registry cannot resolve it,
return without enqueueing anything (`none`); otherwise build the touch
request for the resolved mountpath with the supplied time (the source
defaults the variadic time to `time.Now()`; the model takes it explicitly). -/
def Touch (resolve : String → Option MpathInfo) (fqn : String) (t : Time) :
    Option atimeRequest :=
  match resolve fqn with
  | none => none
  | some mpathInfo => some ⟨fqn, t, mpathInfo.Path, atimeTouch⟩

/-- `Runner.Atime`: resolve `fqn`; when resolved, enqueue a get request
(`Sum.inl`, access time left at the zero value); otherwise deliver
`Response{AccessTime: time.Time{}, Ok: false}` immediately (`Sum.inr`). -/
def Atime (resolve : String → Option MpathInfo) (fqn : String) :
    Sum atimeRequest Response :=
  match resolve fqn with
  | some mpathInfo => Sum.inl ⟨fqn, 0, mpathInfo.Path, atimeGet⟩
  | none => Sum.inr ⟨false, 0⟩

/-- The worker's reply to a get request (`m.atimemap[request.fqn]` with the
comma-ok idiom: a missing key reads as the zero time and `ok = false`). -/
def getResponse (st : AtimeMap) (fqn : String) : Response :=
  match mapGet st fqn with
  | some accessTime => ⟨true, accessTime⟩
  | none => ⟨false, 0⟩

/-- The `request := <-r.requestCh` branch of `Runner.Run`, composed with the
receiving worker's handling of the forwarded request: look the worker up by
`request.mpath`; when found, a touch is applied to that worker's map
(`m.atimemap[request.fqn] = request.accessTime`) and any other request type
is answered from the worker's map; when not found, a get request is answered
`Response{AccessTime: time.Time{}, Ok: false}` and anything else is dropped. -/
def handleRequest (reg : Registry) (req : atimeRequest) :
    Registry × Option Response :=
  match mapGet reg req.mpath with
  | some st =>
    if req.requestType = atimeTouch then
      (mapSet reg req.mpath (mapSet st req.fqn req.accessTime), none)
    else
      (reg, some (getResponse st req.fqn))
  | none =>
    if req.requestType = atimeGet then (reg, some ⟨false, 0⟩) else (reg, none)

/-- End-to-end effect of one `Touch` call on the worker registry: nothing is
enqueued when the path does not resolve; otherwise the dispatcher processes
the enqueued request. -/
def touchStep (resolve : String → Option MpathInfo) (reg : Registry)
    (fqn : String) (t : Time) : Registry :=
  match Touch resolve fqn t with
  | none => reg
  | some req => (handleRequest reg req).1

/-- `Runner.addMpathAtimeRunner`: keep the existing worker when one is
registered (warning log); ignore the event when the external registry has no
filesystem for the mountpath (error log); otherwise register a fresh worker
with an empty access-time map (`newMpathAtimeRunner`). -/
def addMpathAtimeRunner (resolve : String → Option MpathInfo) (reg : Registry)
    (mpath : String) : Registry :=
  match mapGet reg mpath with
  | some _ => reg
  | none =>
    match resolve mpath with
    | none => reg
    | some _ => mapSet reg mpath []

/-- `Runner.removeMpathAtimeRunner`: ignore an unknown mountpath (error log);
otherwise stop the worker and delete it from the registry. -/
def removeMpathAtimeRunner (reg : Registry) (mpath : String) : Registry :=
  match mapGet reg mpath with
  | none => reg
  | some _ => eraseKey reg mpath

/-! ## Worker event loop (`mpathAtimeRunner.run`) -/

/-- One event consumed by the worker's select loop: a set request, a get
request, or a flush signal (carrying the filesystem, the `*m.maxMapSize`
value, the oracle reading and the requested count). The stop branch ends the
loop and is modelled by the end of the event list. -/
inductive WorkerEvent
  | set (fqn : String) (t : Time)
  | get (fqn : String)
  | flush (fs : FS) (maxMapSize : ℕ) (util : Option ℚ) (n : ℤ)

/-- The state transition of one iteration of `mpathAtimeRunner.run`: a set
request overwrites `m.atimemap[request.fqn]`; a get request leaves the map
unchanged (its reply is `getResponse`); a flush runs `handleFlush`. -/
def workerStep (st : AtimeMap) : WorkerEvent → AtimeMap
  | .set fqn t => mapSet st fqn t
  | .get _ => st
  | .flush fs maxMapSize util n => handleFlush fs maxMapSize util st n

/-! ## Association-list lemmas for the dispatcher/worker models -/

theorem mapGet_mapSet_self {α : Type} (l : List (String × α)) (k : String)
    (v : α) : mapGet (mapSet l k v) k = some v := by
  induction l with
  | nil => simp [mapGet, mapSet]
  | cons kv rest ih =>
    obtain ⟨k', w⟩ := kv
    by_cases hk : k' = k
    · subst hk
      simp [mapSet, mapGet]
    · simp [mapSet, mapGet, hk, ih]

theorem mapGet_mapSet_other {α : Type} (l : List (String × α)) (k q : String)
    (v : α) (hq : q ≠ k) : mapGet (mapSet l k v) q = mapGet l q := by
  have hkq : ¬ k = q := fun h => hq h.symm
  induction l with
  | nil => simp [mapGet, mapSet, hkq]
  | cons kv rest ih =>
    obtain ⟨k', w⟩ := kv
    by_cases hk : k' = k
    · subst hk
      simp [mapSet, mapGet, hkq]
    · simp only [mapSet, if_neg hk, mapGet]
      by_cases hk' : k' = q
      · simp [if_pos hk']
      · simp [if_neg hk', ih]

theorem mem_keys_mapSet {α : Type} (l : List (String × α)) (k q : String)
    (v : α) :
    q ∈ (mapSet l k v).map Prod.fst → q ∈ l.map Prod.fst ∨ q = k := by
  induction l with
  | nil =>
    intro h
    simp only [mapSet, List.map_cons, List.map_nil, List.mem_singleton] at h
    exact Or.inr h
  | cons kv rest ih =>
    intro h
    obtain ⟨k', w⟩ := kv
    by_cases hk : k' = k
    · subst hk
      rw [show mapSet ((k', w) :: rest) k' v = (k', v) :: rest by simp [mapSet]] at h
      rw [List.map_cons, List.mem_cons] at h
      rcases h with h | h
      · exact Or.inr h
      · refine Or.inl ?_
        rw [List.map_cons]
        exact List.mem_cons_of_mem _ h
    · simp only [mapSet, if_neg hk, List.map_cons, List.mem_cons] at h
      rcases h with h | h
      · refine Or.inl ?_
        rw [List.map_cons, h]
        exact List.mem_cons_self _ _
      · rcases ih h with h' | h'
        · refine Or.inl ?_
          rw [List.map_cons]
          exact List.mem_cons_of_mem _ h'
        · exact Or.inr h'

theorem nodupKeys_mapSet {α : Type} (l : List (String × α)) (k : String)
    (v : α) (hnd : nodupKeys l) : nodupKeys (mapSet l k v) := by
  induction l with
  | nil => simp [mapSet, nodupKeys]
  | cons kv rest ih =>
    obtain ⟨k', w⟩ := kv
    simp only [nodupKeys, List.map_cons, List.nodup_cons] at hnd
    by_cases hk : k' = k
    · subst hk
      rw [show mapSet ((k', w) :: rest) k' v = (k', v) :: rest by simp [mapSet]]
      simp only [nodupKeys, List.map_cons, List.nodup_cons]
      exact hnd
    · have := ih hnd.2
      simp only [mapSet, if_neg hk, nodupKeys, List.map_cons, List.nodup_cons]
      refine ⟨fun hmem => ?_, this⟩
      rcases mem_keys_mapSet rest k k' v hmem with h | h
      · exact hnd.1 h
      · exact hk h

theorem mapGet_eraseKey_other {α : Type} (l : List (String × α)) (k q : String)
    (hq : q ≠ k) : mapGet (eraseKey l k) q = mapGet l q := by
  have hkq : ¬ k = q := fun h => hq h.symm
  induction l with
  | nil => simp [eraseKey]
  | cons kv rest ih =>
    obtain ⟨k', w⟩ := kv
    by_cases hk : k' = k
    · subst hk
      simp [eraseKey, mapGet, hkq]
    · simp only [eraseKey, if_neg hk, mapGet]
      by_cases hk' : k' = q
      · simp [if_pos hk']
      · simp [if_neg hk', ih]

theorem mapGet_eraseKey_self {α : Type} (l : List (String × α)) (k : String)
    (hnd : nodupKeys l) : mapGet (eraseKey l k) k = none := by
  induction l with
  | nil => simp [eraseKey, mapGet]
  | cons kv rest ih =>
    obtain ⟨k', w⟩ := kv
    simp only [nodupKeys, List.map_cons, List.nodup_cons] at hnd
    by_cases hk : k' = k
    · subst hk
      cases hmem : mapGet rest k' with
      | none => simp [eraseKey, hmem]
      | some v =>
        exact absurd (List.mem_map.mpr ⟨(k', v), mem_of_mapGet_eq_some hmem, rfl⟩)
          hnd.1
    · simp only [eraseKey, if_neg hk, mapGet, if_neg hk]
      exact ih hnd.2

theorem eraseKey_sublist {α : Type} (l : List (String × α)) (k : String) :
    List.Sublist (eraseKey l k) l := by
  induction l with
  | nil => simp [eraseKey]
  | cons kv rest ih =>
    obtain ⟨k', w⟩ := kv
    by_cases hk : k' = k
    · simp only [eraseKey, if_pos hk]
      exact List.Sublist.cons _ (List.Sublist.refl rest)
    · simp only [eraseKey, if_neg hk]
      exact List.Sublist.cons₂ _ ih

/-! ## C5: last-writer-wins over the worker's sequential event loop -/

theorem workerStep_nodup (st : AtimeMap) (e : WorkerEvent) (hnd : nodupKeys st) :
    nodupKeys (workerStep st e) := by
  cases e with
  | set fqn t => exact nodupKeys_mapSet st fqn t hnd
  | get fqn => exact hnd
  | flush fs maxMapSize util n =>
    exact nodupKeys_of_sublist (handleFlush_sublist fs maxMapSize util st n) hnd

theorem nodupKeys_foldl (evs : List WorkerEvent) :
    ∀ st : AtimeMap, nodupKeys st → nodupKeys (evs.foldl workerStep st) := by
  induction evs with
  | nil => intro st h; exact h
  | cons e rest ih =>
    intro st h
    rw [List.foldl_cons]
    exact ih _ (workerStep_nodup st e h)

theorem lastWriterWins_aux (path : String) (tk : Time) :
    ∀ (evs : List WorkerEvent) (st : AtimeMap), nodupKeys st →
      (mapGet st path = some tk ∨ mapGet st path = none) →
      (∀ e ∈ evs, ∀ t, e ≠ WorkerEvent.set path t) →
      (mapGet (evs.foldl workerStep st) path = some tk
        ∨ mapGet (evs.foldl workerStep st) path = none) := by
  intro evs
  induction evs with
  | nil => intro st _ hst _; exact hst
  | cons e rest ih =>
    intro st hnd hst hno
    rw [List.foldl_cons]
    refine ih (workerStep st e) (workerStep_nodup st e hnd) ?_
      (fun e' he' t => hno e' (List.mem_cons_of_mem _ he') t)
    cases e with
    | set fqn t =>
      have hne : path ≠ fqn := by
        intro heq
        exact (hno (WorkerEvent.set fqn t) (List.mem_cons_self _ _) t)
          (by rw [heq])
      simp only [workerStep]
      rw [mapGet_mapSet_other st fqn path t hne]
      exact hst
    | get fqn => exact hst
    | flush fs maxMapSize util n =>
      simp only [workerStep]
      cases hnew : mapGet (handleFlush fs maxMapSize util st n) path with
      | none => exact Or.inr rfl
      | some v =>
        have hold : mapGet st path = some v :=
          mapGet_restrict (handleFlush_sublist fs maxMapSize util st n) hnd hnew
        rcases hst with h | h
        · rw [hold] at h
          injection h with h
          exact Or.inl (by rw [h])
        · rw [h] at hold
          cases hold

/-- C5: over the worker's sequential event loop, consider the last set
request for `path` (timestamp `tk`); all earlier traffic (including the
earlier sets on `path` with timestamps `t1 … t(k-1)`) is an arbitrary prefix
`pre`, and the events processed afterwards (`post`) contain no further set
on `path` (they may be sets of other paths, gets, and flushes). A
subsequently processed get for `path` then delivers
`Response{Ok: true, AccessTime: tk}`, or `Response{Ok: false, AccessTime: 0}`
when an intervening flush removed the entry. -/
theorem lastWriterWins (st0 : AtimeMap) (hnd : nodupKeys st0)
    (pre post : List WorkerEvent) (path : String) (tk : Time)
    (hpost : ∀ e ∈ post, ∀ t, e ≠ WorkerEvent.set path t) :
    getResponse ((pre ++ WorkerEvent.set path tk :: post).foldl workerStep st0)
        path = ⟨true, tk⟩
    ∨ getResponse ((pre ++ WorkerEvent.set path tk :: post).foldl workerStep st0)
        path = ⟨false, 0⟩ := by
  rw [List.foldl_append, List.foldl_cons]
  have hnd1 : nodupKeys (pre.foldl workerStep st0) := nodupKeys_foldl pre st0 hnd
  have hnd2 : nodupKeys (workerStep (pre.foldl workerStep st0)
      (WorkerEvent.set path tk)) :=
    workerStep_nodup _ _ hnd1
  have hget2 : mapGet (workerStep (pre.foldl workerStep st0)
      (WorkerEvent.set path tk)) path = some tk := by
    simp only [workerStep]
    exact mapGet_mapSet_self _ path tk
  rcases lastWriterWins_aux path tk post _ hnd2 (Or.inl hget2) hpost with h | h
  · exact Or.inl (by simp [getResponse, h])
  · exact Or.inr (by simp [getResponse, h])

/-- C5 witness: two sets on "a" (timestamps 1 then 2) followed by a get. -/
theorem lastWriterWins_witness :
    (getResponse (([WorkerEvent.set "a" 1]
        ++ WorkerEvent.set "a" 2 :: [WorkerEvent.get "a"]).foldl workerStep [])
        "a" = ⟨true, 2⟩)
    ∨ (getResponse (([WorkerEvent.set "a" 1]
        ++ WorkerEvent.set "a" 2 :: [WorkerEvent.get "a"]).foldl workerStep [])
        "a" = ⟨false, 0⟩) :=
  lastWriterWins [] (by simp [nodupKeys]) [WorkerEvent.set "a" 1]
    [WorkerEvent.get "a"] "a" 2
    (by
      intro e he t
      rw [List.mem_singleton] at he
      subst he
      simp)

/-! ## C6, C7: responses and dropped requests -/

/-- C6: every Response the subsystem produces with `Ok = false` carries the
zero access time, at all three producing sites (an `Atime` whose path the
registry cannot resolve; the dispatcher answering a get for a mountpath with
no registered worker; a worker get on a key absent from its map), and
conversely a worker get on a missing key always yields `Ok = false`. -/
theorem response_false_is_zero :
    (∀ (resolve : String → Option MpathInfo) (fqn : String),
        resolve fqn = none → Atime resolve fqn = Sum.inr ⟨false, 0⟩)
    ∧ (∀ (resolve : String → Option MpathInfo) (fqn : String) (r : Response),
        Atime resolve fqn = Sum.inr r → r.Ok = false ∧ r.AccessTime = 0)
    ∧ (∀ (reg : Registry) (req : atimeRequest),
        mapGet reg req.mpath = none → req.requestType = atimeGet →
        (handleRequest reg req).2 = some ⟨false, 0⟩)
    ∧ (∀ (reg : Registry) (req : atimeRequest) (r : Response),
        (handleRequest reg req).2 = some r → r.Ok = false → r.AccessTime = 0)
    ∧ (∀ (st : AtimeMap) (fqn : String),
        mapGet st fqn = none → getResponse st fqn = ⟨false, 0⟩)
    ∧ (∀ (st : AtimeMap) (fqn : String),
        (getResponse st fqn).Ok = false →
        mapGet st fqn = none ∧ (getResponse st fqn).AccessTime = 0) := by
  have hget : ∀ (st : AtimeMap) (fqn : String) (r : Response),
      getResponse st fqn = r → r.Ok = false → r.AccessTime = 0 := by
    intro st fqn r h hok
    cases hg : mapGet st fqn with
    | some t =>
      rw [show getResponse st fqn = ⟨true, t⟩ by simp [getResponse, hg]] at h
      rw [← h] at hok
      cases hok
    | none =>
      rw [show getResponse st fqn = ⟨false, 0⟩ by simp [getResponse, hg]] at h
      rw [← h]
  refine ⟨?_, ?_, ?_, ?_, ?_, ?_⟩
  · intro resolve fqn h
    simp [Atime, h]
  · intro resolve fqn r h
    cases hres : resolve fqn with
    | some info => simp [Atime, hres] at h
    | none =>
      rw [show Atime resolve fqn = Sum.inr ⟨false, 0⟩ by simp [Atime, hres]] at h
      injection h with h
      rw [← h]
      exact ⟨rfl, rfl⟩
  · intro reg req hm ht
    simp [handleRequest, hm, ht]
  · intro reg req r h hok
    cases hm : mapGet reg req.mpath with
    | some st =>
      by_cases htt : req.requestType = atimeTouch
      · simp [handleRequest, hm, htt] at h
      · simp only [handleRequest, hm, if_neg htt] at h
        injection h with h
        exact hget st req.fqn r h hok
    | none =>
      by_cases htg : req.requestType = atimeGet
      · simp only [handleRequest, hm, if_pos htg] at h
        injection h with h
        rw [← h]
      · simp [handleRequest, hm, htg] at h
  · intro st fqn h
    simp [getResponse, h]
  · intro st fqn hok
    cases hg : mapGet st fqn with
    | some t =>
      rw [show getResponse st fqn = ⟨true, t⟩ by simp [getResponse, hg]] at hok
      cases hok
    | none =>
      exact ⟨rfl, by simp [getResponse, hg]⟩

/-- C6 witness: the three producing sites at concrete inputs. -/
theorem response_false_is_zero_witness :
    Atime (fun _ => none) "x" = Sum.inr ⟨false, 0⟩
    ∧ (handleRequest [] ⟨"x", 0, "m", atimeGet⟩).2 = some ⟨false, 0⟩
    ∧ getResponse [] "x" = ⟨false, 0⟩ :=
  ⟨response_false_is_zero.1 (fun _ => none) "x" rfl,
   response_false_is_zero.2.2.1 [] ⟨"x", 0, "m", atimeGet⟩ rfl rfl,
   response_false_is_zero.2.2.2.2.1 [] "x" rfl⟩

/-- C7: a Touch whose path the registry cannot resolve returns without
enqueueing a request; a touch request for a mountpath with no registered
worker is discarded by the dispatcher with no reply and no registry change;
in both cases the end-to-end effect on the worker registry is the identity. -/
theorem touch_dropped :
    (∀ (resolve : String → Option MpathInfo) (fqn : String) (t : Time),
        resolve fqn = none → Touch resolve fqn t = none)
    ∧ (∀ (reg : Registry) (req : atimeRequest),
        req.requestType = atimeTouch → mapGet reg req.mpath = none →
        handleRequest reg req = (reg, none))
    ∧ (∀ (resolve : String → Option MpathInfo) (reg : Registry) (fqn : String)
        (t : Time), resolve fqn = none → touchStep resolve reg fqn t = reg)
    ∧ (∀ (resolve : String → Option MpathInfo) (reg : Registry) (fqn : String)
        (t : Time) (info : MpathInfo), resolve fqn = some info →
        mapGet reg info.Path = none → touchStep resolve reg fqn t = reg) := by
  refine ⟨?_, ?_, ?_, ?_⟩
  · intro resolve fqn t h
    simp [Touch, h]
  · intro reg req ht hm
    have hne : ¬ req.requestType = atimeGet := by
      rw [ht]
      decide
    simp [handleRequest, hm, hne]
  · intro resolve reg fqn t h
    simp [touchStep, Touch, h]
  · intro resolve reg fqn t info hres hm
    simp [touchStep, Touch, hres, handleRequest, hm, atimeTouch, atimeGet]

/-- C7 witness: an unresolvable path and an unregistered mountpath. -/
theorem touch_dropped_witness :
    Touch (fun _ => none) "x" 5 = none
    ∧ handleRequest [] ⟨"x", 5, "m", atimeTouch⟩ = ([], none)
    ∧ touchStep (fun _ => none) [] "x" 5 = []
    ∧ touchStep (fun _ => some ⟨"m", "fs1"⟩) [] "x" 5 = [] :=
  ⟨touch_dropped.1 (fun _ => none) "x" 5 rfl,
   touch_dropped.2.1 [] ⟨"x", 5, "m", atimeTouch⟩ rfl rfl,
   touch_dropped.2.2.1 (fun _ => none) [] "x" 5 rfl,
   touch_dropped.2.2.2 (fun _ => some ⟨"m", "fs1"⟩) [] "x" 5 ⟨"m", "fs1"⟩ rfl rfl⟩

/-! ## C8: worker lifecycle in the dispatcher registry -/

/-- C8 counterexample: a mountpath-Add for a mountpath with no registered
worker does NOT register one when the external registry cannot resolve the
mountpath (`Path2MpathInfo` returns nil): `addMpathAtimeRunner` logs an error
and returns with the registry unchanged. -/
theorem addMpath_unresolved_registers_nothing :
    mapGet ([] : Registry) "a" = none
    ∧ mapGet (addMpathAtimeRunner (fun _ => none) ([] : Registry) "a") "a"
        = none :=
  ⟨rfl, rfl⟩

/-- C8 (amended): a mountpath-Add registers a fresh worker (with an empty
atimemap) when none exists and the external registry resolves the mountpath,
leaving every other entry unchanged; when a worker already exists, or the
mountpath does not resolve, the registry is unchanged; a mountpath-Remove of
an unknown mountpath is a no-op, and of a known one removes exactly that
worker; both operations preserve the one-worker-per-mountpath invariant. -/
theorem mpath_lifecycle :
    (∀ (resolve : String → Option MpathInfo) (reg : Registry) (mpath : String)
        (w : AtimeMap), mapGet reg mpath = some w →
        addMpathAtimeRunner resolve reg mpath = reg)
    ∧ (∀ (resolve : String → Option MpathInfo) (reg : Registry)
        (mpath : String) (info : MpathInfo), mapGet reg mpath = none →
        resolve mpath = some info →
        mapGet (addMpathAtimeRunner resolve reg mpath) mpath
            = some ([] : AtimeMap)
        ∧ ∀ q, q ≠ mpath →
            mapGet (addMpathAtimeRunner resolve reg mpath) q = mapGet reg q)
    ∧ (∀ (resolve : String → Option MpathInfo) (reg : Registry)
        (mpath : String), mapGet reg mpath = none → resolve mpath = none →
        addMpathAtimeRunner resolve reg mpath = reg)
    ∧ (∀ (reg : Registry) (mpath : String), mapGet reg mpath = none →
        removeMpathAtimeRunner reg mpath = reg)
    ∧ (∀ (reg : Registry) (mpath : String) (w : AtimeMap), nodupKeys reg →
        mapGet reg mpath = some w →
        mapGet (removeMpathAtimeRunner reg mpath) mpath = none
        ∧ ∀ q, q ≠ mpath →
            mapGet (removeMpathAtimeRunner reg mpath) q = mapGet reg q)
    ∧ (∀ (resolve : String → Option MpathInfo) (reg : Registry)
        (mpath : String), nodupKeys reg →
        nodupKeys (addMpathAtimeRunner resolve reg mpath)
        ∧ nodupKeys (removeMpathAtimeRunner reg mpath)) := by
  refine ⟨?_, ?_, ?_, ?_, ?_, ?_⟩
  · intro resolve reg mpath w h
    simp [addMpathAtimeRunner, h]
  · intro resolve reg mpath info hm hres
    refine ⟨?_, ?_⟩
    · simp [addMpathAtimeRunner, hm, hres, mapGet_mapSet_self]
    · intro q hq
      simp only [addMpathAtimeRunner, hm, hres]
      exact mapGet_mapSet_other reg mpath q [] hq
  · intro resolve reg mpath hm hres
    simp [addMpathAtimeRunner, hm, hres]
  · intro reg mpath hm
    simp [removeMpathAtimeRunner, hm]
  · intro reg mpath w hnd hm
    refine ⟨?_, ?_⟩
    · simp only [removeMpathAtimeRunner, hm]
      exact mapGet_eraseKey_self reg mpath hnd
    · intro q hq
      simp only [removeMpathAtimeRunner, hm]
      exact mapGet_eraseKey_other reg mpath q hq
  · intro resolve reg mpath hnd
    constructor
    · unfold addMpathAtimeRunner
      cases hm : mapGet reg mpath with
      | some w => exact hnd
      | none =>
        cases hres : resolve mpath with
        | none => exact hnd
        | some info => exact nodupKeys_mapSet reg mpath [] hnd
    · unfold removeMpathAtimeRunner
      cases hm : mapGet reg mpath with
      | none => exact hnd
      | some w => exact nodupKeys_of_sublist (eraseKey_sublist reg mpath) hnd

/-- C8 witness: concrete add/remove instances. -/
theorem mpath_lifecycle_witness :
    addMpathAtimeRunner (fun _ => some ⟨"m", "fs1"⟩) [("m", [])] "m"
        = [("m", [])]
    ∧ mapGet (addMpathAtimeRunner (fun _ => some ⟨"m", "fs1"⟩) [] "m") "m"
        = some []
    ∧ removeMpathAtimeRunner [] "m" = []
    ∧ mapGet (removeMpathAtimeRunner [("m", [])] "m") "m" = none :=
  ⟨mpath_lifecycle.1 (fun _ => some ⟨"m", "fs1"⟩) [("m", [])] "m" [] rfl,
   (mpath_lifecycle.2.1 (fun _ => some ⟨"m", "fs1"⟩) [] "m" ⟨"m", "fs1"⟩
      rfl rfl).1,
   mpath_lifecycle.2.2.2.1 [] "m" rfl,
   (mpath_lifecycle.2.2.2.2.1 [("m", [])] "m" [] (by simp [nodupKeys]) rfl).1⟩
